import Mathlib

/-!
# Verification of the messagebuilder store-resolution and distribution pipeline

Shallow embedding of the repository's current `src/server.js` (the first
revision in that file; the second block after the document separator and the
unreachable duplicate block inside the create handler are earlier revisions,
modelled separately only where a claim refers to them).

Conventions of the embedding:
* JavaScript strings are Lean `String`s; character-level scanning is done on
  `List Char` (`String.data`).
* JavaScript truthiness on optional string fields (`x || "default"`) is
  modelled by `jsOr` (absent or empty string falls through to the default).
* The external platform is modelled by explicit parameters (page lists,
  assigned ids, failure predicates); outbound calls are recorded in a trace.
* All functions are total: JavaScript code paths that throw are modelled with
  `Except`/`Option` values or failure predicates.
-/

namespace MessageBuilder

/-- JS truthiness fallback `a || b` for an optional string field:
`undefined`/missing and the empty string are falsy. -/
def jsOr (a : Option String) (b : String) : String :=
  match a with
  | none => b
  | some s => if s = "" then b else s

/-- JS `String.prototype.startsWith`: plain prefix test, modelled on the
underlying character lists. -/
def jsStartsWith (s pre : String) : Bool :=
  pre.data.isPrefixOf s.data

/-- JS `\s` character class (whitespace as used by `String.prototype.trim`,
`split(/\s+/)` etc.): ASCII whitespace plus the Unicode space characters. -/
def isJsWs (c : Char) : Bool :=
  c = ' ' || c = '\t' || c = '\n' || c = '\r' ||
  c = '\x0b' || c = '\x0c' || c = '\u00a0' || c = '\u1680' ||
  ('\u2000' ≤ c && c ≤ '\u200a') || c = '\u2028' || c = '\u2029' ||
  c = '\u202f' || c = '\u205f' || c = '\u3000' || c = '\ufeff' 

/-- JS `String.prototype.trim` on a character list. -/
def trimChars (l : List Char) : List Char :=
  ((l.dropWhile isJsWs).reverse.dropWhile isJsWs).reverse

/-- JS `String.prototype.trim`. -/
def trimS (s : String) : String :=
  String.mk (trimChars s.data)

/-- One directory account as built by `getAllUsersMap` (server.js:82-86):
the platform account id, the store identifier read from the hidden profile
attribute, and a display name. -/
structure DirUser where
  id : String
  csvId : String
  name : String
  deriving Repr, DecidableEq

/-- The in-memory identifier→account lookup table.  The JS code uses a `Map`
of which only `.get` is observed; we model it as an association list where
`Map.set` prepends, so that `mapGet` (first match) sees the latest write —
observationally equivalent to the JS last-write-wins `Map`. -/
def UserMap := List (String × DirUser)

/-- `Map.prototype.get`, returning the most recent binding of the key. -/
def mapGet (m : UserMap) (k : String) : Option DirUser :=
  (m.find? (fun p => p.1 = k)).map (·.2)

/-- `Map.prototype.set` (last write wins; see `UserMap`). -/
def mapSet (m : UserMap) (k : String) (v : DirUser) : UserMap :=
  (k, v) :: m

/-- One raw person record of the external directory, as consumed by
`getAllUsersMap` (server.js:79-87): optional name parts and an optional
custom-profile-field map.  `profile?.[HIDDEN_ATTRIBUTE_KEY]` is modelled as a
first-match lookup in the association list. -/
structure RawUser where
  id : String
  firstName : Option String
  lastName : Option String
  profile : Option (List (String × String))
  deriving Repr

/-- `user.profile?.[key]`: optional-chained property access. -/
def profileGet (u : RawUser) (key : String) : Option String :=
  match u.profile with
  | none => none
  | some l => (l.find? (fun p => p.1 = key)).map (·.2)

/-- Body of the per-user loop of `getAllUsersMap` (server.js:79-87): insert
the user keyed by the hidden store-id attribute, skipping entries lacking a
truthy value for it. -/
def processUser (hak : String) (m : UserMap) (u : RawUser) : UserMap :=
  match profileGet u hak with
  | none => m
  | some sid =>
    if sid = "" then m
    else mapSet m sid
      ⟨u.id, sid, trimS (jsOr u.firstName "" ++ " " ++ jsOr u.lastName "")⟩

/-- The pagination loop of `getAllUsersMap` (server.js:70-95).  The upstream
directory is modelled as the full ordered user list; a `GET /users` page at
`offset` is `(directory.drop offset).take 100`; `pageErr offset = true` models
the `sb` call throwing at that offset (the `catch` breaks the loop and keeps
the accumulated map).  The inter-page `delay` is a no-op for the result. -/
def getAllUsersMapGo (hak : String) (directory : List RawUser)
    (pageErr : Nat → Bool) (offset : Nat) (m : UserMap) : UserMap :=
  if pageErr offset then m
  else if ((directory.drop offset).take 100).length = 0 then m
  else if ((directory.drop offset).take 100).length < 100 then
    ((directory.drop offset).take 100).foldl (processUser hak) m
  else
    getAllUsersMapGo hak directory pageErr (offset + 100)
      (((directory.drop offset).take 100).foldl (processUser hak) m)
termination_by directory.length - offset
decreasing_by
  simp only [List.length_take, List.length_drop] at *
  omega

/-- `getAllUsersMap()` (server.js:70-95): build the identifier→account index
from offset 0 with page size 100. -/
def getAllUsersMap (hak : String) (directory : List RawUser)
    (pageErr : Nat → Bool) : UserMap :=
  getAllUsersMapGo hak directory pageErr 0 []

/-- Concrete directory index used by witnesses: one account, store id "100". -/
def sampleMap : UserMap := [("100", ⟨"u1", "100", "Alice"⟩)]

/-- The classification loop of `POST /api/verify-users` (server.js:142-148):
for each requested id, in input order, look it up in the user map and push it
onto `foundUsers` or `notFoundIds`. -/
def classifyStoreIds (userMap : UserMap) : List String → List DirUser × List String
  | [] => ([], [])
  | id :: rest =>
    let (f, nf) := classifyStoreIds userMap rest
    match mapGet userMap id with
    | some u => (u :: f, nf)
    | none => (f, id :: nf)

/-- Lowercase an ASCII letter (JS `/i` matching for the ASCII-only patterns
used by this code base). -/
def lcChar (c : Char) : Char :=
  if 'A' ≤ c && c ≤ 'Z' then Char.ofNat (c.toNat + 32) else c

/-- Case-insensitive prefix test: does the (lowercase, ASCII) `needle` match
the front of `hay` under JS `/i` matching? -/
def ciPrefixOf : List Char → List Char → Bool
  | [], _ => true
  | _ :: _, [] => false
  | n :: ns, h :: hs => lcChar h = n && ciPrefixOf ns hs

/-- `parseInt(digits, 10)` on a non-empty decimal digit capture. -/
def parseDigits (l : List Char) : Nat :=
  l.foldl (fun a c => a * 10 + (c.toNat - 48)) 0

/-- Decimal digit character. -/
def digitChar (d : Nat) : Char := Char.ofNat (48 + d)

/-- Decimal rendering of a natural number (JS number→string interpolation in
template literals), accumulator form.  The first argument is structural fuel
(`fuel = n` always suffices since the value shrinks by a factor 10 per
step), keeping the definition kernel-computable. -/
def natReprGo : Nat → Nat → List Char → List Char
  | 0, n, acc => digitChar n :: acc
  | fuel + 1, n, acc =>
    if n < 10 then digitChar n :: acc
    else natReprGo fuel (n / 10) (digitChar (n % 10) :: acc)

/-- Decimal rendering of a natural number as a string. -/
def natRepr (n : Nat) : String := String.mk (natReprGo n n [])

/-- Capture of `\s*([^;]+)` with JS greedy/backtracking semantics: skip
maximal whitespace; the capture is the maximal run of non-`;` characters, at
least one; if the character after the whitespace is `;` (or the end), the
engine gives back one whitespace character to satisfy `[^;]+`. -/
def deptCapture (s : List Char) : Option (List Char) :=
  let ws := s.takeWhile isJsWs
  let rest := s.dropWhile isJsWs
  match rest with
  | r :: _ =>
    if r = ';' then
      match ws.getLast? with
      | some w => some [w]
      | none => none
    else some (rest.takeWhile (fun c => ¬ c = ';'))
  | [] =>
    match ws.getLast? with
    | some w => some [w]
    | none => none

/-- Match of `(?:Category|Department):\s*([^;]+)` (pattern `/i`) anchored at
the current scan position. -/
def deptMatchAt (s : List Char) : Option (List Char) :=
  if ciPrefixOf "category:".data s then deptCapture (s.drop 9)
  else if ciPrefixOf "department:".data s then deptCapture (s.drop 11)
  else none

/-- Leftmost match of `/(?:Category|Department):\s*([^;]+)/i`
(server.js:437): returns the capture group. -/
def deptScan : List Char → Option (List Char)
  | [] => none
  | c :: cs =>
    match deptMatchAt (c :: cs) with
    | some cap => some cap
    | none => deptScan cs

/-- Capture of `\s*(\d+)`: skip maximal whitespace, then at least one digit
(whitespace cannot be given back as digits, so no backtracking applies). -/
def countCapture (s : List Char) : Option Nat :=
  let rest := s.dropWhile isJsWs
  match rest with
  | r :: _ =>
    if r.isDigit then some (parseDigits (rest.takeWhile Char.isDigit))
    else none
  | [] => none

/-- Match of `Targeted Stores:\s*(\d+)` (pattern `/i`) anchored at the
current scan position. -/
def countMatchAt (s : List Char) : Option Nat :=
  if ciPrefixOf "targeted stores:".data s then countCapture (s.drop 16)
  else none

/-- Leftmost match of `/Targeted Stores:\s*(\d+)/i` (server.js:454):
returns the captured count. -/
def countScan : List Char → Option Nat
  | [] => none
  | c :: cs =>
    match countMatchAt (c :: cs) with
    | some n => some n
    | none => countScan cs

/-- Lookahead `(?=\s*(?:Targeted|User Count|$))` of the body fallback regex:
the words start with non-whitespace characters, so only the position after
the maximal whitespace run can match (or the whole rest is whitespace for the
`$` case). -/
def bodyLookahead (t : List Char) : Bool :=
  let t2 := t.dropWhile isJsWs
  ciPrefixOf "targeted".data t2 || ciPrefixOf "user count".data t2 ||
    t2.isEmpty

/-- Lazy capture `([^\n\r]*?)` followed by `bodyLookahead`: extend the
capture one character at a time (shortest first), each captured character a
non-newline, until the lookahead holds. -/
def bodyLazyCap : List Char → List Char → Option (List Char)
  | t, acc =>
    if bodyLookahead t then some acc.reverse
    else
      match t with
      | [] => none
      | c :: cs =>
        if c = '\n' ∨ c = '\r' then none
        else bodyLazyCap cs (c :: acc)

/-- `\s*` of the body fallback regex, greedy with backtracking: try the
maximal whitespace run first, then give characters back one at a time. -/
def bodyTryW (s : List Char) : Nat → Option (List Char)
  | 0 => bodyLazyCap s []
  | w + 1 =>
    match bodyLazyCap (s.drop (w + 1)) [] with
    | some cap => some cap
    | none => bodyTryW s w

/-- Capture of `\s*([^\n\r]*?)(?=\s*(?:Targeted|User Count|$))` after the
colon (may legitimately capture the empty string). -/
def bodyCapAfterColon (s : List Char) : Option (List Char) :=
  bodyTryW s (s.takeWhile isJsWs).length

/-- Match of the body fallback pattern anchored at the current position. -/
def bodyDeptMatchAt (s : List Char) : Option (List Char) :=
  if ciPrefixOf "category:".data s then bodyCapAfterColon (s.drop 9)
  else if ciPrefixOf "department:".data s then bodyCapAfterColon (s.drop 11)
  else none

/-- Leftmost match of
`/(?:Category|Department):\s*([^\n\r]*?)(?=\s*(?:Targeted|User Count|$))/i`
(server.js:448): the legacy body-text department extraction. -/
def bodyDeptScan : List Char → Option (List Char)
  | [] => none
  | c :: cs =>
    match bodyDeptMatchAt (c :: cs) with
    | some cap => some cap
    | none => bodyDeptScan cs

/-- `text.replace(/&nbsp;/gi, ' ')`: global, case-insensitive, left-to-right
non-overlapping replacement. -/
def replaceNbsp : List Char → List Char
  | [] => []
  | c :: cs =>
    if ciPrefixOf "&nbsp;".data (c :: cs) then ' ' :: replaceNbsp (cs.drop 5)
    else c :: replaceNbsp cs
termination_by l => l.length
decreasing_by
  all_goals simp only [List.length_cons, List.length_drop]
  all_goals omega

/-- `text.replace(/&amp;/gi, '&')`. -/
def replaceAmp : List Char → List Char
  | [] => []
  | c :: cs =>
    if ciPrefixOf "&amp;".data (c :: cs) then '&' :: replaceAmp (cs.drop 4)
    else c :: replaceAmp cs
termination_by l => l.length
decreasing_by
  all_goals simp only [List.length_cons, List.length_drop]
  all_goals omega

/-- `text.replace(/<[^>]+>/g, ' ')`: strip HTML tags.  At each `<`, the
greedy `[^>]+` runs to the first `>`; a match needs at least one inner
character and a closing `>`, otherwise the `<` is kept and scanning
continues. -/
def stripTags : List Char → List Char
  | [] => []
  | c :: cs =>
    if c = '<' then
      let run := cs.takeWhile (fun x => ¬ x = '>')
      let r2 := cs.drop run.length
      if run.isEmpty then '<' :: stripTags cs
      else if r2.head? = some '>' then ' ' :: stripTags r2.tail
      else '<' :: stripTags cs
    else c :: stripTags cs
termination_by l => l.length
decreasing_by
  all_goals simp only [List.length_cons, List.length_tail, List.length_drop]
  all_goals omega

/-- `text.replace(/\s+/g, ' ')`: collapse whitespace runs to single
spaces. -/
def collapseWs : List Char → List Char
  | [] => []
  | c :: cs =>
    if isJsWs c then ' ' :: collapseWs (cs.dropWhile isJsWs)
    else c :: collapseWs cs
termination_by l => l.length
decreasing_by
  · simp only [List.length_cons]
    have h : ∀ l : List Char, (l.dropWhile isJsWs).length ≤ l.length := by
      intro l
      induction l with
      | nil => simp [List.dropWhile]
      | cons x xs ih =>
        rw [List.dropWhile_cons]
        by_cases hx : isJsWs x
        · simp only [hx, if_pos, List.length_cons]
          omega
        · simp [hx]
    have := h cs
    omega
  · simp only [List.length_cons]
    omega

/-- `cleanText` (server.js:60-68): entity replacement, tag stripping,
whitespace collapsing and trimming used to turn post HTML into plain text
before the body-fallback regexes run. -/
def cleanText (text : String) : String :=
  if text = "" then ""
  else String.mk (trimChars (collapseWs (stripTags
    (replaceAmp (replaceNbsp text.data)))))

/-- The split of the lazy tail `(.*?) - (.+)$` of the `[external]` title
regex: find the shortest non-newline-clean prefix followed by `" - "` whose
remainder is non-empty and newline-free (`.` does not match line
terminators). -/
def extSplitGo : List Char → List Char → Option (List Char × List Char)
  | rest, acc =>
    if " - ".data.isPrefixOf rest ∧
        (rest.drop 3 ≠ [] ∧ (rest.drop 3).all (fun c =>
          ¬ (c = '\n' ∨ c = '\r' ∨ c = '\u2028' ∨ c = '\u2029'))) then
      some (acc.reverse, rest.drop 3)
    else
      match rest with
      | [] => none
      | c :: cs =>
        if c = '\n' ∨ c = '\r' ∨ c = '\u2028' ∨ c = '\u2029' then none
        else extSplitGo cs (c :: acc)

/-- The legacy bracket-tagged title pattern
`/^\[external\][^:]+:(\d+):([^:]*)::(.*?) - (.+)$/` (server.js:410),
returning `(count, department, displayTitle)` = (`match[1]`, `match[3]`,
`match[4]`).  The `[^:]+`/`\d+`/`[^:]*` segments are each forced to the
maximal run (backtracking them leaves a character that cannot match the
following literal `:`), so the match is computed segment by segment. -/
def externalTitleMatch (title : List Char) : Option (Nat × List Char × List Char) :=
  if "[external]".data.isPrefixOf title then
    let rest := title.drop 10
    let a := rest.takeWhile (fun c => ¬ c = ':')
    if a.isEmpty then none
    else
      match rest.drop a.length with
      | ':' :: r2 =>
        let d := r2.takeWhile Char.isDigit
        if d.isEmpty then none
        else
          match r2.drop d.length with
          | ':' :: r4 =>
            let b := r4.takeWhile (fun c => ¬ c = ':')
            match r4.drop b.length with
            | ':' :: ':' :: r6 =>
              match extSplitGo r6 [] with
              | some (cpart, tpart) => some (parseDigits d, cpart, tpart)
              | none => none
            | _ => none
          | _ => none
      | _ => none
  else none

/-- One post as read back by the listing route
(`p.contents?.en_US?...`, server.js:425-467). -/
structure PostData where
  teaser : Option String
  kicker : Option String
  content : Option String
  published : Bool
  planned : Bool
  deriving Repr

/-- One workspace installation as read by the listing route
(server.js:382-393). -/
structure Installation where
  id : String
  pluginID : String
  externalID : Option String
  title : Option String
  accessorIDs : Option (List String)
  createdAt : Option String
  created : Option String
  deriving Repr

/-- One listed distribution (the `item` object of server.js:399-419). -/
structure Item where
  channelId : String
  title : String
  department : String
  userCount : Nat
  createdAt : String
  status : String
  deriving Repr, DecidableEq

/-- Recognition dispatch of the listing route (server.js:395-421): anything
whose external id starts with `adhoc` is a current-generation distribution
with placeholder department/count; else a `[external]`-tagged title is
decoded by the legacy pattern; else the object is not recognized. -/
def itemBase (inst : Installation) (nowIso : String) : Option Item :=
  let title := jsOr inst.title "Untitled"
  let extID := jsOr inst.externalID ""
  let defaultUserCount :=
    match inst.accessorIDs with
    | some l => l.length
    | none => 0
  let dateStr := jsOr inst.createdAt (jsOr inst.created nowIso)
  if jsStartsWith extID "adhoc" then
    some ⟨inst.id, title, "Uncategorized", defaultUserCount, dateStr, "Draft"⟩
  else if jsStartsWith title "[external]" then
    match externalTitleMatch title.data with
    | some (cnt, dept, realTitle) =>
      some ⟨inst.id, String.mk realTitle, String.mk dept, cnt, dateStr,
        "Draft"⟩
    | none => none
  else none

/-- Department extraction step (server.js:435-450): the teaser pattern
first (its capture is never empty, hence always truthy), else the kicker
verbatim (trimmed) when non-empty, else the body fallback pattern whose
possibly-empty capture is applied only when truthy. -/
def hydrateDept (item : Item) (teaserText kickerText plainBodyText : String) :
    Item :=
  match deptScan teaserText.data with
  | some cap => { item with department := String.mk (trimChars cap) }
  | none =>
    if kickerText ≠ "" then { item with department := trimS kickerText }
    else
      match bodyDeptScan plainBodyText.data with
      | some cap =>
        if cap.isEmpty then item
        else { item with department := String.mk (trimChars cap) }
      | none => item

/-- User-count extraction step (server.js:452-463): the teaser pattern
first, else the body, else the item's existing (accessor-count) value. -/
def hydrateCount (item : Item) (teaserText plainBodyText : String) : Item :=
  match countScan teaserText.data with
  | some n => { item with userCount := n }
  | none =>
    match countScan plainBodyText.data with
    | some n => { item with userCount := n }
    | none => item

/-- Status step (server.js:465-467). -/
def hydrateStatus (item : Item) (p : PostData) : Item :=
  if p.published then { item with status := "Published" }
  else if p.planned then { item with status := "Scheduled" }
  else item

/-- Post-hydration of a recognized item (server.js:425-467): with no fetched
post the provisional item is kept; otherwise the first post's teaser, kicker
and plain-text body drive the sequential department, count and status
updates above. -/
def hydrateItem (item : Item) (posts : List PostData) : Item :=
  match posts with
  | [] => item
  | p :: _ =>
    let teaserText := jsOr p.teaser ""
    let kickerText := jsOr p.kicker ""
    let plainBodyText := cleanText (jsOr p.content "")
    hydrateStatus
      (hydrateCount (hydrateDept item teaserText kickerText plainBodyText)
        teaserText plainBodyText) p

/-- Per-installation decode of the listing route (server.js:382-471): filter
to the `news` plugin, recognize, then hydrate from the latest post.
`postFetch = none` models the post fetch throwing (caught: the provisional
item is kept); `some posts` is the fetched `posts.data`. -/
def decodeInst (inst : Installation) (postFetch : Option (List PostData))
    (nowIso : String) : Option Item :=
  if inst.pluginID ≠ "news" then none
  else
    match itemBase inst nowIso with
    | none => none
    | some it =>
      match postFetch with
      | none => some it
      | some posts => some (hydrateItem it posts)

/-- The current-generation identifier token built by `POST /api/create`
(server.js:175): `` `adhoc-${now}` ``. -/
def encodeExternalID (now : Nat) : String :=
  "adhoc-" ++ natRepr now

/-- The teaser built by `POST /api/create` (server.js:221):
`` `Category: ${department}; Targeted Stores: ${userIds.length}` ``. -/
def encodeTeaser (department : String) (count : Nat) : String :=
  "Category: " ++ department ++ "; Targeted Stores: " ++ natRepr count

/-- Concrete installation carrying a pipe-delimited earliest-generation
token, used to settle C1: seven accessors, a stored creation date distinct
from the token timestamp. -/
def pipeInst : Installation :=
  ⟨"chX", "news", some "adhoc_v2|1700000000000|42|Marketing",
    some "Legacy title", some ["a", "b", "c", "d", "e", "f", "g"],
    some "2024-05-05T00:00:00.000Z", none⟩

/-- The accumulated `items` of `GET /api/items` (server.js:374-476) over the
concatenation of all installation pages, with the per-distribution post
fetch keyed by the installation id.  The final `items.sort(...)` only
permutes the list (its comparator parses `createdAt` as a date) and is not
modelled; no claim depends on the output order. -/
def listItems (insts : List Installation)
    (postFetch : String → Option (List PostData)) (nowIso : String) :
    List Item :=
  insts.filterMap (fun inst => decodeInst inst (postFetch inst.id) nowIso)

/-- One parsed task row (server.js:97-112): title required, description
defaulting to empty, optional due date. -/
structure TaskRow where
  title : String
  description : String
  dueDate : Option String
  deriving Repr, DecidableEq

/-- `text.split(/\r?\n/)`: split on `\n` or `\r\n` (a lone `\r` is not a
separator). -/
def splitLinesGo : List Char → List Char → List (List Char)
  | [], cur => [cur.reverse]
  | '\r' :: '\n' :: rest, cur => cur.reverse :: splitLinesGo rest []
  | '\n' :: rest, cur => cur.reverse :: splitLinesGo rest []
  | c :: rest, cur => splitLinesGo rest (c :: cur)

/-- `String.prototype.split` on single-character separators (used for `;`
and the `[;,]` class). -/
def splitBy (isSep : Char → Bool) : List Char → List Char → List (List Char)
  | [], cur => [cur.reverse]
  | c :: rest, cur =>
    if isSep c then cur.reverse :: splitBy isSep rest []
    else splitBy isSep rest (c :: cur)

/-- `parseTaskCSV` (server.js:97-112): semicolon-separated `title; desc;
date` lines; blank lines dropped, rows without a title dropped.
`dateParse` stands in for `new Date(date).toISOString()`, whose calendar
parsing is environment-defined. -/
def parseTaskCSV (dateParse : String → String) (text : String) : List TaskRow :=
  let lines := ((splitLinesGo text.data []).map trimChars).filter
    (fun l => ¬ l.isEmpty)
  lines.filterMap (fun line =>
    let parts := (splitBy (fun c => c = ';') line []).map trimChars
    let title := parts.getD 0 []
    let desc := parts.getD 1 []
    let date := parts.getD 2 []
    if title.isEmpty then none
    else some ⟨String.mk title, String.mk desc,
      if date.isEmpty then none else some (dateParse (String.mk date))⟩)

/-- JS `\w` character class. -/
def isWordChar (c : Char) : Bool := c.isAlpha || c.isDigit || c = '_'

/-- The store-project title pattern `/^Store\s*#?\s*(\w+)$/i`
(server.js:123): the optional `#` and the whitespace runs are forced (no
word character is whitespace or `#`), so matching is segment-by-segment. -/
def storeTitleToken (title : List Char) : Option (List Char) :=
  if ciPrefixOf "store".data title then
    let r1 := (title.drop 5).dropWhile isJsWs
    let r2 := match r1 with
      | '#' :: t => t
      | _ => r1
    let r3 := r2.dropWhile isJsWs
    if ¬ r3.isEmpty ∧ r3.all isWordChar then some r3 else none
  else none

/-- JS object property assignment `obj[k] = v`: an existing key keeps its
position and is overwritten, a new key is appended. -/
def upsert (l : List (String × String)) (k v : String) :
    List (String × String) :=
  if l.any (fun p => p.1 = k) then
    l.map (fun p => if p.1 = k then (k, v) else p)
  else l ++ [(k, v)]

/-- `discoverProjectsByStoreIds` (server.js:114-132) over the concatenation
of all installation pages: keep projects whose title matches the store
pattern with a token among the requested store ids, building the
storeId→installation-id object. -/
def discoverProjects (storeIds : List String) (insts : List Installation) :
    List (String × String) :=
  insts.foldl (fun pm inst =>
    match storeTitleToken (jsOr inst.title "").data with
    | some tok =>
      if storeIds.contains (String.mk tok) then
        upsert pm (String.mk tok) inst.id
      else pm
    | none => pm) []

/-- Is the string a canonical array-index key (the keys JS objects order
numerically ascending before all other string keys)? -/
def isCanonicalIndex (s : String) : Bool :=
  ¬ s.data.isEmpty ∧ s.data.all Char.isDigit ∧
    (s = "0" ∨ ¬ s.data.head? = some '0') ∧
    parseDigits s.data < 4294967295

/-- Stable insertion into a list sorted by a numeric key (insert after
equal keys). -/
def insertByKey (x : String × String) : List (String × String) →
    List (String × String)
  | [] => [x]
  | y :: ys =>
    if parseDigits x.1.data < parseDigits y.1.data then x :: y :: ys
    else y :: insertByKey x ys

/-- Stable sort by numeric key (insertion sort; the keys here are distinct
object keys, so stability is moot). -/
def sortByKey (l : List (String × String)) : List (String × String) :=
  l.foldr insertByKey []

/-- `Object.values(obj)`: canonical array-index keys first in ascending
numeric order, then the remaining keys in insertion order. -/
def jsObjectValues (l : List (String × String)) : List String :=
  (sortByKey (l.filter (fun p => isCanonicalIndex p.1))
    ++ l.filter (fun p => ¬ isCanonicalIndex p.1)).map (·.2)

/-- The chunking of the unreachable duplicate fan-out block
(server.js:299-300): `for (let i=0; i<n; i+=5) push(slice(i, i+5))` — each
step takes the next five elements (`slice(i, i+5)`), the last chunk holding
the remainder. -/
def chunk5 {α : Type} : List α → List (List α)
  | [] => []
  | x1 :: x2 :: x3 :: x4 :: x5 :: x6 :: rest =>
    [x1, x2, x3, x4, x5] :: chunk5 (x6 :: rest)
  | l => [l]

/-- Concurrency schedule of the reachable task fan-out loop
(server.js:233-240): a plain `for (const instId of instIds)` whose body is
awaited to completion before the next iteration begins, so each concurrency
group consists of a single project workflow and groups run strictly in
sequence. -/
def fanOutConcurrencyGroups (instIds : List String) : List (List String) :=
  instIds.map (fun i => [i])

/-- One outbound call to the external platform, as recorded by the create
handler's trace.  Discovery pagination (sequential GETs) is abstracted into
the single `discoverStoreProjects` marker. -/
inductive ExtCall where
  | createChannel (externalID title : String) (accessorIDs : List String)
  | createPost (channelId title teaser kicker content : String)
  | createTaskList (instId name : String)
  | createTask (instId listId title description : String)
      (dueDate : Option String)
  | discoverStoreProjects (storeIds : List String)
  | profileImport
  deriving Repr, DecidableEq

/-- The inner `for (const t of tasks)` of the fan-out (server.js:236-238):
tasks are created sequentially; a throw at task index `k` (caught by the
surrounding per-project `catch`) abandons the remaining tasks of that
project. -/
def emitTasks (instId listId : String) (taskFail : String → Nat → Bool) :
    List TaskRow → Nat → List ExtCall
  | [], _ => []
  | t :: ts, k =>
    ExtCall.createTask instId listId t.title t.description t.dueDate ::
      (if taskFail instId k then []
       else emitTasks instId listId taskFail ts (k + 1))

/-- One iteration of the fan-out loop (server.js:233-240): try to create the
task list, then the tasks; any throw is caught and the loop moves on. -/
def runProject (title : String) (tasks : List TaskRow)
    (listResId : String → String) (listFail : String → Bool)
    (taskFail : String → Nat → Bool) (instId : String) : List ExtCall :=
  if listFail instId then [ExtCall.createTaskList instId title]
  else ExtCall.createTaskList instId title ::
    emitTasks instId (listResId instId) taskFail tasks 0

/-- The task-list HTML block of the post body (server.js:181-189);
`fmtDate` stands in for the locale-dependent `toLocaleDateString`. -/
def taskListHTML (fmtDate : String → String) (tasks : List TaskRow) : String :=
  if tasks.isEmpty then ""
  else "<h3>Action Items</h3><ul>" ++
    String.join (tasks.map (fun t =>
      "<li><strong>" ++ t.title ++ "</strong><br>" ++ t.description ++
        (match t.dueDate with
         | some dd => " <span style=\"color:#666; font-size:0.9em;\">(Due: "
             ++ fmtDate dd ++ ")</span>"
         | none => "") ++ "</li>")) ++ "</ul>"

/-- The profile field-merge HTML table (server.js:192-209): needs at least a
header row and one data row, splits on `;` or `,`. -/
def profileMergeHTML (profileText : String) : String :=
  let rows := ((splitLinesGo profileText.data []).map trimChars).filter
    (fun l => ¬ l.isEmpty)
  if rows.length < 2 then ""
  else
    let headers := splitBy (fun c => c = ';' || c = ',') (rows.getD 0 []) []
    let firstDataRow := splitBy (fun c => c = ';' || c = ',') (rows.getD 1 []) []
    "<h3>Field Merge Guide (First Row)</h3><table border=\"1\" " ++
    "style=\"border-collapse: collapse; width: 100%; font-size: 0.9em;\">" ++
    "<tr style=\"background: #f4f6f8;\"><th style=\"padding: 8px;\">" ++
    "Profile Field (ID)</th><th style=\"padding: 8px;\">Format</th>" ++
    "<th style=\"padding: 8px;\">Example</th></tr>" ++
    String.join (headers.enum.map (fun (pair : Nat × List Char) =>
      let cleanHeader := String.mk (trimChars pair.2)
      "<tr><td style=\"padding: 8px;\"><code>" ++ cleanHeader ++
      "</code></td><td style=\"padding: 8px;\"><code>" ++
      "\x7b\x7buser.profile." ++ cleanHeader ++ "\x7d\x7d</code></td>" ++
      "<td style=\"padding: 8px; color: #666;\">" ++
      String.mk (firstDataRow.getD pair.1 []) ++ "</td></tr>")) ++
    "</table><br>"

/-- The department normalization at the top of the create handler
(server.js:161-163). -/
def jsDept (d : Option String) : String :=
  match d with
  | none => "Uncategorized"
  | some s =>
    if s = "" ∨ s = "undefined" ∨ trimS s = "" then "Uncategorized" else s

/-- The create request after body/file parsing: `verifiedUsers` is the
JSON-parsed array (or `none` when absent/unparseable), the files are their
text contents. -/
structure CreateReq where
  verifiedUsers : Option (List DirUser)
  title : String
  department : Option String
  taskCsv : Option String
  profileCsv : Option String

/-- The external platform's behavior during one create request: the clock,
the ids it assigns, whether the channel/post calls throw (with the error
message of the thrown `Error`), the installations visible to project
discovery, per-project task-list failure, per-task failure, and the outcome
of the profile-csv upload. -/
structure CreateEnv where
  now : Nat
  channelResId : String
  channelFail : Option String
  postResId : String
  postFail : Option String
  installations : List Installation
  listResId : String → String
  listFail : String → Bool
  taskFail : String → Nat → Bool
  importOk : Bool

/-- The success payload of `POST /api/create` (server.js:257). -/
structure CreateOk where
  channelId : String
  postId : String
  taskCount : Nat
  importCount : Nat
  deriving Repr, DecidableEq

/-- The `POST /api/create` handler (server.js:156-262): validation, channel
creation, post creation, best-effort task fan-out and profile import.
Returns the HTTP result together with the trace of outbound calls in
program order. -/
def createHandler (req : CreateReq) (env : CreateEnv)
    (dateParse fmtDate : String → String) :
    Except (Nat × String) CreateOk × List ExtCall :=
  let department := jsDept req.department
  match req.verifiedUsers with
  | none => (Except.error (400, "No verified users provided."), [])
  | some vus =>
    if vus.length = 0 then
      (Except.error (400, "No verified users provided."), [])
    else
      let userIds := vus.map (·.id)
      let storeIds := vus.map (·.csvId)
      let metaExternalID := encodeExternalID env.now
      let tlHTML :=
        match req.taskCsv with
        | some text => taskListHTML fmtDate (parseTaskCSV dateParse text)
        | none => ""
      let pmHTML :=
        match req.profileCsv with
        | some text => profileMergeHTML text
        | none => ""
      let chanCall := ExtCall.createChannel metaExternalID req.title userIds
      match env.channelFail with
      | some msg => (Except.error (500, msg), [chanCall])
      | none =>
        let channelId := env.channelResId
        let contentHTML := req.title ++ "<hr>" ++ pmHTML ++ tlHTML
        let contentTeaser := encodeTeaser department userIds.length
        let postCall := ExtCall.createPost channelId req.title contentTeaser
          department contentHTML
        match env.postFail with
        | some msg => (Except.error (500, msg), [chanCall, postCall])
        | none =>
          let fanRes : Nat × List ExtCall :=
            match req.taskCsv with
            | none => (0, [])
            | some text =>
              let tasks := parseTaskCSV dateParse text
              let projectMap := discoverProjects storeIds env.installations
              let instIds := jsObjectValues projectMap
              (tasks.length * instIds.length,
                ExtCall.discoverStoreProjects storeIds ::
                  instIds.flatMap
                    (runProject req.title tasks env.listResId env.listFail
                      env.taskFail))
          let impRes : Nat × List ExtCall :=
            match req.profileCsv with
            | none => (0, [])
            | some _ =>
              ((if env.importOk then 1 else 0), [ExtCall.profileImport])
          (Except.ok ⟨channelId, env.postResId, fanRes.1, impRes.1⟩,
            [chanCall, postCall] ++ fanRes.2 ++ impRes.2)

end MessageBuilder

namespace MessageBuilder

/-- C10 helper: the found list is exactly the per-occurrence image of the
lookup, in input order. -/
theorem classifyStoreIds_found (m : UserMap) (ids : List String) :
    (classifyStoreIds m ids).1 = ids.filterMap (mapGet m) := by
  induction ids with
  | nil => rfl
  | cons id rest ih =>
    simp only [classifyStoreIds, List.filterMap_cons]
    cases h : mapGet m id <;> simp [h, ih]

/-- C10 helper: the not-found list is exactly the ids whose lookup fails,
in input order. -/
theorem classifyStoreIds_notFound (m : UserMap) (ids : List String) :
    (classifyStoreIds m ids).2 = ids.filter (fun id => (mapGet m id).isNone) := by
  induction ids with
  | nil => rfl
  | cons id rest ih =>
    simp only [classifyStoreIds, List.filter_cons]
    cases h : mapGet m id <;> simp [h, ih]

/-- Helper: each input occurrence lands in exactly one of the two outputs, so
the lengths add up to the input length. -/
theorem classifyStoreIds_length (m : UserMap) (ids : List String) :
    (classifyStoreIds m ids).1.length + (classifyStoreIds m ids).2.length =
      ids.length := by
  induction ids with
  | nil => rfl
  | cons id rest ih =>
    simp only [classifyStoreIds]
    cases h : mapGet m id <;> simp [h] <;> omega

/-- C10: the verify handler classifies one entry per occurrence of the input
array, in input order and without deduplicating — so
`|foundUsers| + |notFoundIds| = |storeIds|` for every input array (including
arrays with repeated identifiers), and the two outputs are exactly the
per-occurrence lookups respectively failures, in input order. -/
theorem verify_no_dedup_per_occurrence (m : UserMap) (ids : List String) :
    (classifyStoreIds m ids).1.length + (classifyStoreIds m ids).2.length
        = ids.length ∧
    (classifyStoreIds m ids).1 = ids.filterMap (mapGet m) ∧
    (classifyStoreIds m ids).2
        = ids.filter (fun id => (mapGet m id).isNone) :=
  ⟨classifyStoreIds_length m ids, classifyStoreIds_found m ids,
    classifyStoreIds_notFound m ids⟩

/-- C4: for a non-empty deduplicated input set, resolution partitions it
exactly: the counts add up, every resolved account's store id is a member of
the input, and each identifier lands in exactly one of the two outputs
(it is in `notFoundIds` iff no resolved account carries it). -/
theorem resolution_partition (m : UserMap) (ids : List String)
    (_hnodup : ids.Nodup) (_hne : ids ≠ [])
    (hwf : ∀ k u, mapGet m k = some u → u.csvId = k) :
    (classifyStoreIds m ids).1.length + (classifyStoreIds m ids).2.length
        = ids.length ∧
    (∀ u ∈ (classifyStoreIds m ids).1, u.csvId ∈ ids) ∧
    (∀ id ∈ ids,
      id ∈ (classifyStoreIds m ids).2 ↔
        ¬ ∃ u ∈ (classifyStoreIds m ids).1, u.csvId = id) := by
  refine ⟨classifyStoreIds_length m ids, ?_, ?_⟩
  · intro u hu
    rw [classifyStoreIds_found] at hu
    obtain ⟨id, hid, hget⟩ := List.mem_filterMap.mp hu
    rw [hwf id u hget]; exact hid
  · intro id hid
    rw [classifyStoreIds_notFound, classifyStoreIds_found]
    constructor
    · intro hnf ⟨u, hu, hcsv⟩
      obtain ⟨id', hid', hget'⟩ := List.mem_filterMap.mp hu
      have heq : u.csvId = id' := hwf id' u hget'
      rw [← hcsv, heq] at hnf
      have h2 := (List.mem_filter.mp hnf).2
      simp only [Option.isNone_iff_eq_none, decide_eq_true_eq] at h2
      rw [hget'] at h2
      exact Option.noConfusion h2
    · intro hne'
      rw [List.mem_filter]
      refine ⟨hid, ?_⟩
      cases hget : mapGet m id with
      | none => simp
      | some u =>
        exact absurd ⟨u, List.mem_filterMap.mpr ⟨id, hid, hget⟩,
          hwf id u hget⟩ hne'

/-- One-step unfolding of `getAllUsersMapGo`: a page-fetch error returns the
accumulated map. -/
theorem getAllUsersMapGo_step_err (hak : String) (dir : List RawUser)
    (pageErr : Nat → Bool) (offset : Nat) (m : UserMap)
    (h : pageErr offset = true) :
    getAllUsersMapGo hak dir pageErr offset m = m := by
  rw [getAllUsersMapGo]
  simp [h]

/-- One-step unfolding of `getAllUsersMapGo`: an empty page stops the loop. -/
theorem getAllUsersMapGo_step_empty (hak : String) (dir : List RawUser)
    (pageErr : Nat → Bool) (offset : Nat) (m : UserMap)
    (h0 : pageErr offset = false)
    (h : ((dir.drop offset).take 100).length = 0) :
    getAllUsersMapGo hak dir pageErr offset m = m := by
  rw [getAllUsersMapGo]
  rw [if_neg (by simp [h0]), if_pos h]

/-- One-step unfolding of `getAllUsersMapGo`: a short page is processed and
then the loop stops. -/
theorem getAllUsersMapGo_step_short (hak : String) (dir : List RawUser)
    (pageErr : Nat → Bool) (offset : Nat) (m : UserMap)
    (h0 : pageErr offset = false)
    (hne : ((dir.drop offset).take 100).length ≠ 0)
    (h : ((dir.drop offset).take 100).length < 100) :
    getAllUsersMapGo hak dir pageErr offset m
      = ((dir.drop offset).take 100).foldl (processUser hak) m := by
  rw [getAllUsersMapGo]
  rw [if_neg (by simp [h0]), if_neg hne, if_pos h]

/-- One-step unfolding of `getAllUsersMapGo`: a full page is processed and
the loop continues at the next offset. -/
theorem getAllUsersMapGo_step_full (hak : String) (dir : List RawUser)
    (pageErr : Nat → Bool) (offset : Nat) (m : UserMap)
    (h0 : pageErr offset = false)
    (h : ((dir.drop offset).take 100).length = 100) :
    getAllUsersMapGo hak dir pageErr offset m
      = getAllUsersMapGo hak dir pageErr (offset + 100)
          (((dir.drop offset).take 100).foldl (processUser hak) m) := by
  conv_lhs => rw [getAllUsersMapGo]
  rw [if_neg (by simp [h0]), if_neg (by omega), if_neg (by omega)]

/-- Helper for C9, error case: if the first page-fetch error occurs at page
`k` (counting from `offset`) and no earlier page was short, the loop result
is the fold over exactly the `100*k` users of the pages before the error. -/
theorem getAllUsersMapGo_err (hak : String) (dir : List RawUser)
    (pageErr : Nat → Bool) :
    ∀ (k offset : Nat) (m : UserMap),
      (∀ j, j < k → pageErr (offset + 100 * j) = false) →
      pageErr (offset + 100 * k) = true →
      offset + 100 * k ≤ dir.length →
      getAllUsersMapGo hak dir pageErr offset m
        = ((dir.drop offset).take (100 * k)).foldl (processUser hak) m := by
  intro k
  induction k with
  | zero =>
    intro offset m _ herr _
    simp only [Nat.mul_zero, Nat.add_zero] at herr
    rw [getAllUsersMapGo_step_err hak dir pageErr offset m herr]
    simp
  | succ k ih =>
    intro offset m hok herr hle
    have h0 : pageErr offset = false := by
      simpa using hok 0 (Nat.succ_pos k)
    have hlen : ((dir.drop offset).take 100).length = 100 := by
      simp only [List.length_take, List.length_drop]
      omega
    rw [getAllUsersMapGo_step_full hak dir pageErr offset m h0 hlen]
    have ih' := ih (offset + 100)
      (((dir.drop offset).take 100).foldl (processUser hak) m)
      (fun j hj => by
        have := hok (j + 1) (Nat.succ_lt_succ hj)
        rw [← this]; ring_nf)
      (by rw [← herr]; ring_nf)
      (by omega)
    rw [ih']
    have hsplit : 100 * (k + 1) = 100 + 100 * k := by ring
    rw [hsplit, List.take_add, List.foldl_append]
    congr 1
    rw [List.drop_drop]

/-- Helper for C9, clean case: with no page-fetch errors the loop folds over
the whole remaining directory (terminating at the first short or empty
page). -/
theorem getAllUsersMapGo_ok (hak : String) (dir : List RawUser)
    (pageErr : Nat → Bool) :
    ∀ (n offset : Nat) (m : UserMap), dir.length - offset ≤ n →
      (∀ j, pageErr (offset + 100 * j) = false) →
      getAllUsersMapGo hak dir pageErr offset m
        = (dir.drop offset).foldl (processUser hak) m := by
  intro n
  induction n with
  | zero =>
    intro offset m hle hno
    have h0 : pageErr offset = false := by simpa using hno 0
    have hdrop : dir.drop offset = [] :=
      List.drop_eq_nil_of_le (by omega)
    rw [getAllUsersMapGo_step_empty hak dir pageErr offset m h0 (by simp [hdrop])]
    simp [hdrop]
  | succ n ih =>
    intro offset m hle hno
    have h0 : pageErr offset = false := by simpa using hno 0
    by_cases hz : ((dir.drop offset).take 100).length = 0
    · have hdrop : dir.drop offset = [] := by
        simp only [List.length_take, List.length_drop] at hz
        exact List.drop_eq_nil_of_le (by omega)
      rw [getAllUsersMapGo_step_empty hak dir pageErr offset m h0 hz]
      simp [hdrop]
    · by_cases hshort : ((dir.drop offset).take 100).length < 100
      · have htake : (dir.drop offset).take 100 = dir.drop offset := by
          apply List.take_of_length_le
          simp only [List.length_take, List.length_drop] at hshort ⊢
          omega
        rw [getAllUsersMapGo_step_short hak dir pageErr offset m h0 hz hshort,
          htake]
      · have hfull : ((dir.drop offset).take 100).length = 100 := by
          simp only [List.length_take, List.length_drop] at hshort hz ⊢
          omega
        have hge : 100 ≤ dir.length - offset := by
          simp only [List.length_take, List.length_drop] at hfull
          omega
        rw [getAllUsersMapGo_step_full hak dir pageErr offset m h0 hfull]
        rw [ih (offset + 100)
          (((dir.drop offset).take 100).foldl (processUser hak) m)
          (by omega)
          (fun j => by
            have := hno (j + 1)
            rw [← this]; ring_nf)]
        conv_rhs => rw [← List.take_append_drop 100 (dir.drop offset)]
        rw [List.foldl_append, List.drop_drop]

/-- Witness for C4 at the concrete index `sampleMap` and input
`["100", "999"]`. -/
theorem resolution_partition_witness :
    (classifyStoreIds sampleMap ["100", "999"]).1.length +
        (classifyStoreIds sampleMap ["100", "999"]).2.length = 2 ∧
    (∀ u ∈ (classifyStoreIds sampleMap ["100", "999"]).1,
        u.csvId ∈ ["100", "999"]) ∧
    (∀ id ∈ ["100", "999"],
      id ∈ (classifyStoreIds sampleMap ["100", "999"]).2 ↔
        ¬ ∃ u ∈ (classifyStoreIds sampleMap ["100", "999"]).1,
            u.csvId = id) :=
  resolution_partition sampleMap ["100", "999"] (by decide) (by decide)
    (by
      intro k u h
      by_cases hk : k = "100"
      · subst hk
        have hs : mapGet sampleMap "100" = some ⟨"u1", "100", "Alice"⟩ := rfl
        rw [hs] at h
        rw [← Option.some.inj h]
      · exfalso
        have hd : decide ("100" = k) = false :=
          decide_eq_false (fun hh => hk hh.symm)
        have hs : mapGet sampleMap k = none := by
          simp only [sampleMap, mapGet, List.find?, hd, Option.map_none']
        rw [hs] at h
        exact Option.noConfusion h)

end MessageBuilder

namespace MessageBuilder

/-- `String.mk` undoes `String.data`. -/
theorem stringMk_data (s : String) : String.mk s.data = s := rfl

/-- `jsOr` on a present, non-empty string is that string. -/
theorem jsOr_some_of_ne (s d : String) (h : s ≠ "") : jsOr (some s) d = s := by
  simp [jsOr, h]

/-- A string starting with the five characters `adhoc` passes
`jsStartsWith · "adhoc"`. -/
theorem jsStartsWith_adhoc_of_data (t : String) (l : List Char)
    (h : t.data = 'a' :: 'd' :: 'h' :: 'o' :: 'c' :: l) :
    jsStartsWith t "adhoc" = true := by
  have ha : "adhoc".data = ['a', 'd', 'h', 'o', 'c'] := rfl
  simp [jsStartsWith, ha, h, List.isPrefixOf]

/-- C7 helper: an installation whose identifier does not start with `adhoc`
and whose title does not start with `[external]` is recognized by neither
branch and decodes to nothing. -/
theorem decodeInst_unrecognized (inst : Installation)
    (postFetch : Option (List PostData)) (nowIso : String)
    (hadhoc : jsStartsWith (jsOr inst.externalID "") "adhoc" = false)
    (hext : jsStartsWith (jsOr inst.title "Untitled") "[external]" = false) :
    decodeInst inst postFetch nowIso = none := by
  by_cases hpl : inst.pluginID = "news"
  · simp [decodeInst, hpl, itemBase, hadhoc, hext]
  · simp [decodeInst, hpl]

/-- C7: a project whose identifier field and title match none of the known
encoding conventions (no `adhoc` identifier prefix, no `[external]` title
prefix) never contributes an item to the listing: the listing over any
project population containing it equals the listing with it removed, and its
own decode is `none` for every post-fetch outcome. -/
theorem unrecognized_project_excluded (insts₁ insts₂ : List Installation)
    (inst : Installation) (postFetch : String → Option (List PostData))
    (nowIso : String)
    (hadhoc : jsStartsWith (jsOr inst.externalID "") "adhoc" = false)
    (hext : jsStartsWith (jsOr inst.title "Untitled") "[external]" = false) :
    (∀ pf now2, decodeInst inst pf now2 = none) ∧
    listItems (insts₁ ++ inst :: insts₂) postFetch nowIso
      = listItems (insts₁ ++ insts₂) postFetch nowIso := by
  refine ⟨fun pf now2 => decodeInst_unrecognized inst pf now2 hadhoc hext, ?_⟩
  simp only [listItems, List.filterMap_append, List.filterMap_cons,
    decodeInst_unrecognized inst (postFetch inst.id) nowIso hadhoc hext]

/-- Witness for C7: a `news` project with identifier `"foo"` and title
`"Bar"` is excluded from a two-project listing. -/
theorem unrecognized_project_excluded_witness :
    (∀ pf now2,
      decodeInst ⟨"i9", "news", some "foo", some "Bar", some ["a"],
        some "2024", none⟩ pf now2 = none) ∧
    listItems ([pipeInst] ++ ⟨"i9", "news", some "foo", some "Bar",
        some ["a"], some "2024", none⟩ :: []) (fun _ => none) "now"
      = listItems ([pipeInst] ++ []) (fun _ => none) "now" :=
  unrecognized_project_excluded [pipeInst] []
    ⟨"i9", "news", some "foo", some "Bar", some ["a"], some "2024", none⟩
    (fun _ => none) "now" (by decide) (by decide)

end MessageBuilder

namespace MessageBuilder

/-- C1 counterexample: decoding the pipe-delimited legacy token
`"adhoc_v2|1700000000000|42|Marketing"` does NOT return the embedded triple.
The current listing route catches anything starting with `adhoc` as
current-generation, so the decoded item keeps the placeholder department, the
accessor-count fallback (7 here, not 42) and the object's own stored
creation date — the token is never split on `|`. -/
theorem legacy_pipe_decode_cex :
    (decodeInst pipeInst none "now").map Item.department
        = some "Uncategorized" ∧
    (decodeInst pipeInst none "now").map Item.department ≠ some "Marketing" ∧
    (decodeInst pipeInst none "now").map Item.userCount = some 7 ∧
    (decodeInst pipeInst none "now").map Item.userCount ≠ some 42 ∧
    (decodeInst pipeInst none "now").map Item.createdAt
        = some "2024-05-05T00:00:00.000Z" := by
  refine ⟨by decide, by decide, by decide, by decide, by decide⟩

/-- C1 (amended): every pipe-delimited legacy token is still *recognized*
(it starts with `adhoc`), but it is decoded as a current-generation object:
the embedded timestamp/count/department are ignored; with no recoverable
post the item carries the placeholder department `"Uncategorized"`, the
accessor-count fallback, and the object's stored creation date. -/
theorem legacy_pipe_decode_amended (ts cnt : Nat)
    (dept chId tt caStr nowIso : String) (acc : List String)
    (htt : tt ≠ "") (hca : caStr ≠ "") :
    decodeInst
        ⟨chId, "news",
          some ("adhoc_v2|" ++ (natRepr ts ++ "|" ++ natRepr cnt ++ "|" ++ dept)),
          some tt, some acc, some caStr, none⟩ none nowIso
      = some ⟨chId, tt, "Uncategorized", acc.length, caStr, "Draft"⟩ := by
  have hd : "adhoc_v2|".data = ['a','d','h','o','c','_','v','2','|'] := rfl
  have hdata :
      ("adhoc_v2|" ++ (natRepr ts ++ "|" ++ natRepr cnt ++ "|" ++ dept)).data
        = 'a' :: 'd' :: 'h' :: 'o' :: 'c' ::
          ('_' :: 'v' :: '2' :: '|' ::
            (natRepr ts ++ "|" ++ natRepr cnt ++ "|" ++ dept).data) := by
    simp [String.data_append, hd]
  have hne : ("adhoc_v2|" ++ (natRepr ts ++ "|" ++ natRepr cnt ++ "|" ++ dept)) ≠ "" := by
    intro h
    have := congrArg String.data h
    rw [hdata] at this
    simp at this
  have hstart := jsStartsWith_adhoc_of_data _ _ hdata
  simp only [decodeInst, itemBase, jsOr_some_of_ne _ _ hne,
    jsOr_some_of_ne _ _ htt, jsOr_some_of_ne _ _ hca, hstart]
  simp

/-- Witness for C1's amended theorem at the claim's concrete token. -/
theorem legacy_pipe_decode_amended_witness :
    decodeInst
        ⟨"chW", "news",
          some ("adhoc_v2|" ++ (natRepr 1700000000000 ++ "|" ++ natRepr 42
            ++ "|" ++ "Marketing")),
          some "T", some ["a", "b"], some "2024-01-01", none⟩ none "now"
      = some ⟨"chW", "T", "Uncategorized", 2, "2024-01-01", "Draft"⟩ :=
  legacy_pipe_decode_amended 1700000000000 42 "Marketing" "chW" "T"
    "2024-01-01" "now" ["a", "b"] (by decide) (by decide)

end MessageBuilder

namespace MessageBuilder

/-- The status step never touches the department. -/
theorem hydrateStatus_department (it : Item) (p : PostData) :
    (hydrateStatus it p).department = it.department := by
  unfold hydrateStatus
  split
  · rfl
  · split <;> rfl

/-- The status step never touches the user count. -/
theorem hydrateStatus_userCount (it : Item) (p : PostData) :
    (hydrateStatus it p).userCount = it.userCount := by
  unfold hydrateStatus
  split
  · rfl
  · split <;> rfl

/-- The count step never touches the department. -/
theorem hydrateCount_department (it : Item) (t b : String) :
    (hydrateCount it t b).department = it.department := by
  unfold hydrateCount
  split
  · rfl
  · split <;> rfl

/-- The department step never touches the user count. -/
theorem hydrateDept_userCount (it : Item) (t k b : String) :
    (hydrateDept it t k b).userCount = it.userCount := by
  unfold hydrateDept
  split
  · rfl
  · split
    · rfl
    · split
      · split <;> rfl
      · rfl

/-- An `adhoc`-prefixed `news` installation decodes to the hydrated
placeholder item. -/
theorem decodeInst_adhoc (inst : Installation) (p : PostData)
    (nowIso : String) (hpl : inst.pluginID = "news")
    (hadhoc : jsStartsWith (jsOr inst.externalID "") "adhoc" = true) :
    decodeInst inst (some [p]) nowIso
      = some (hydrateItem
          ⟨inst.id, jsOr inst.title "Untitled", "Uncategorized",
            (inst.accessorIDs.map List.length).getD 0,
            jsOr inst.createdAt (jsOr inst.created nowIso), "Draft"⟩ [p]) := by
  simp only [decodeInst, hpl, itemBase, hadhoc]
  cases inst.accessorIDs <;> simp

end MessageBuilder

namespace MessageBuilder

/-- C6: decode of a current-generation (`adhoc`-prefixed) distribution never
throws (the model is a total function) and degrades to explicit fallbacks:
with no recoverable teaser `Category:`/`Department:` text, no kicker, and no
matching body text, the department is the fixed placeholder
`"Uncategorized"` and the count is the accessor-count fallback; when
present, the teaser pattern takes priority over the kicker, which takes
priority over the plain-text-stripped body (whose empty capture is ignored),
and the teaser count takes priority over the body count. -/
theorem decode_fallback_and_priority (inst : Installation) (p : PostData)
    (nowIso : String) (hpl : inst.pluginID = "news")
    (hadhoc : jsStartsWith (jsOr inst.externalID "") "adhoc" = true) :
    (deptScan (jsOr p.teaser "").data = none →
      jsOr p.kicker "" = "" →
      bodyDeptScan (cleanText (jsOr p.content "")).data = none →
      countScan (jsOr p.teaser "").data = none →
      countScan (cleanText (jsOr p.content "")).data = none →
      (decodeInst inst (some [p]) nowIso).map Item.department
          = some "Uncategorized" ∧
      (decodeInst inst (some [p]) nowIso).map Item.userCount
          = some ((inst.accessorIDs.map List.length).getD 0)) ∧
    (∀ cap, deptScan (jsOr p.teaser "").data = some cap →
      (decodeInst inst (some [p]) nowIso).map Item.department
        = some (String.mk (trimChars cap))) ∧
    (deptScan (jsOr p.teaser "").data = none → jsOr p.kicker "" ≠ "" →
      (decodeInst inst (some [p]) nowIso).map Item.department
        = some (trimS (jsOr p.kicker ""))) ∧
    (∀ cap, deptScan (jsOr p.teaser "").data = none → jsOr p.kicker "" = "" →
      bodyDeptScan (cleanText (jsOr p.content "")).data = some cap →
      cap ≠ [] →
      (decodeInst inst (some [p]) nowIso).map Item.department
        = some (String.mk (trimChars cap))) ∧
    (∀ n, countScan (jsOr p.teaser "").data = some n →
      (decodeInst inst (some [p]) nowIso).map Item.userCount = some n) ∧
    (countScan (jsOr p.teaser "").data = none →
      ∀ n, countScan (cleanText (jsOr p.content "")).data = some n →
      (decodeInst inst (some [p]) nowIso).map Item.userCount = some n) := by
  have hD := decodeInst_adhoc inst p nowIso hpl hadhoc
  simp only [hD, Option.map_some']
  simp only [hydrateItem, hydrateStatus_department, hydrateStatus_userCount,
    hydrateCount_department, hydrateDept_userCount]
  refine ⟨?_, ?_, ?_, ?_, ?_, ?_⟩
  · intro h1 h2 h3 h4 h5
    constructor
    · simp [hydrateDept, h1, h2, h3]
    · simp [hydrateCount, hydrateDept_userCount, h4, h5]
  · intro cap h
    simp [hydrateDept, h]
  · intro h1 h2
    simp [hydrateDept, h1, h2]
  · intro cap h1 h2 h3 h4
    simp [hydrateDept, h1, h2, h3, h4]
  · intro n h
    simp [hydrateCount, h]
  · intro h1 n h2
    simp [hydrateCount, h1, h2]

/-- Witness for C6: identifier `"adhoc-1700000000000"`, empty post fields,
two accessors — decode yields the placeholder department and count 2. -/
theorem decode_fallback_and_priority_witness :
    (decodeInst ⟨"c6", "news", some "adhoc-1700000000000", some "T",
          some ["x", "y"], some "D", none⟩
        (some [⟨none, none, none, false, false⟩]) "now").map Item.department
      = some "Uncategorized" ∧
    (decodeInst ⟨"c6", "news", some "adhoc-1700000000000", some "T",
          some ["x", "y"], some "D", none⟩
        (some [⟨none, none, none, false, false⟩]) "now").map Item.userCount
      = some 2 :=
  (decode_fallback_and_priority
      ⟨"c6", "news", some "adhoc-1700000000000", some "T", some ["x", "y"],
        some "D", none⟩
      ⟨none, none, none, false, false⟩ "now" rfl (by decide)).1
    rfl rfl rfl rfl rfl

end MessageBuilder

namespace MessageBuilder

/-- `dropWhile` never lengthens a list. -/
theorem length_dropWhile_le' {α : Type} (p : α → Bool) (l : List α) :
    (l.dropWhile p).length ≤ l.length := by
  induction l with
  | nil => simp [List.dropWhile]
  | cons x xs ih =>
    rw [List.dropWhile_cons]
    by_cases hx : p x
    · simp only [hx, if_pos, List.length_cons]
      omega
    · simp [hx]

/-- `takeWhile` over a satisfying block stops exactly at the first failing
element. -/
theorem takeWhile_append_stop {α : Type} (p : α → Bool) (xs : List α)
    (y : α) (ys : List α) (hall : ∀ x ∈ xs, p x = true) (hy : p y = false) :
    (xs ++ y :: ys).takeWhile p = xs := by
  induction xs with
  | nil => simp [List.takeWhile, hy]
  | cons x xs ih =>
    have hx := hall x (by simp)
    simp only [List.cons_append, List.takeWhile_cons, hx, if_pos]
    simp only [List.cons.injEq, true_and]
    exact ih (fun z hz => hall z (by simp [hz]))

/-- `takeWhile` over an all-satisfying list is the identity. -/
theorem takeWhile_of_all {α : Type} (p : α → Bool) (l : List α)
    (hall : ∀ x ∈ l, p x = true) : l.takeWhile p = l := by
  induction l with
  | nil => rfl
  | cons x xs ih =>
    have hx := hall x (by simp)
    simp only [List.takeWhile_cons, hx, if_pos, List.cons.injEq, true_and]
    exact ih (fun z hz => hall z (by simp [hz]))

/-- If the head does not satisfy `p`, `dropWhile` is the identity. -/
theorem dropWhile_cons_of_neg {α : Type} (p : α → Bool) (x : α) (xs : List α)
    (hx : p x = false) : (x :: xs).dropWhile p = x :: xs := by
  simp [List.dropWhile_cons, hx]

/-- A list whose `trim` is itself does not start with whitespace. -/
theorem head_not_ws_of_trim_self (d : Char) (ds : List Char)
    (h : trimChars (d :: ds) = d :: ds) : isJsWs d = false := by
  by_contra hd
  simp only [Bool.not_eq_false] at hd
  have h1 : (d :: ds).dropWhile isJsWs = ds.dropWhile isJsWs := by
    simp [List.dropWhile_cons, hd]
  have h2 : (trimChars (d :: ds)).length ≤ ds.length := by
    unfold trimChars
    rw [h1]
    have h3 := length_dropWhile_le' isJsWs ds
    have h4 := length_dropWhile_le' isJsWs (ds.dropWhile isJsWs).reverse
    simp only [List.length_reverse] at *
    omega
  rw [h] at h2
  simp at h2

/-- `natReprGo` with an accumulator is the bare rendering followed by the
accumulator. -/
theorem natReprGo_acc : ∀ (fuel n : Nat) (acc : List Char),
    natReprGo fuel n acc = natReprGo fuel n [] ++ acc := by
  intro fuel
  induction fuel with
  | zero => intro n acc; rfl
  | succ fuel ih =>
    intro n acc
    by_cases h : n < 10
    · rw [natReprGo, if_pos h]
      conv_rhs => rw [natReprGo, if_pos h]
      simp
    · rw [natReprGo, if_neg h]
      conv_rhs => rw [natReprGo, if_neg h]
      rw [ih (n / 10), ih (n / 10) [digitChar (n % 10)]]
      simp

/-- Every character of a decimal rendering is an ASCII digit: a digit, not
whitespace, and not `;` (for sufficient fuel). -/
theorem natReprGo_char_props : ∀ (fuel n : Nat), n ≤ fuel →
    ∀ c ∈ natReprGo fuel n [], c.isDigit = true ∧ isJsWs c = false ∧ ¬ c = ';' := by
  intro fuel
  induction fuel with
  | zero =>
    intro n hn c hc
    interval_cases n
    simp only [natReprGo, List.mem_singleton] at hc
    subst hc
    exact ⟨by decide, by decide, by decide⟩
  | succ fuel ih =>
    intro n hn c hc
    by_cases h : n < 10
    · rw [natReprGo, if_pos h] at hc
      simp only [List.mem_singleton] at hc
      subst hc
      interval_cases n <;> exact ⟨by decide, by decide, by decide⟩
    · rw [natReprGo, if_neg h,
        natReprGo_acc fuel (n / 10) [digitChar (n % 10)]] at hc
      rcases List.mem_append.mp hc with h1 | h1
      · refine ih (n / 10) ?_ c h1
        have := Nat.div_lt_self (show 0 < n by omega) (show 1 < 10 by omega)
        omega
      · simp only [List.mem_singleton] at h1
        subst h1
        have : n % 10 < 10 := Nat.mod_lt _ (by omega)
        interval_cases hm : (n % 10) <;>
          exact ⟨by decide, by decide, by decide⟩

/-- A decimal rendering is never empty. -/
theorem natReprGo_ne_nil (fuel n : Nat) : natReprGo fuel n [] ≠ [] := by
  cases fuel with
  | zero => simp [natReprGo]
  | succ fuel =>
    rw [natReprGo]
    by_cases h : n < 10 <;> simp [h]
    rw [natReprGo_acc]
    simp

end MessageBuilder

namespace MessageBuilder

/-- `digitChar` of a digit value decodes back via the `parseInt` step. -/
theorem digitChar_val (d : Nat) (hd : d < 10) : (digitChar d).toNat - 48 = d := by
  interval_cases d <;> decide

/-- Folding the `parseInt` step over a decimal rendering. -/
theorem parseDigits_go : ∀ (fuel n : Nat), n ≤ fuel →
    ∀ a, List.foldl (fun a c => a * 10 + (c.toNat - 48)) a (natReprGo fuel n [])
      = a * 10 ^ (natReprGo fuel n []).length + n := by
  intro fuel
  induction fuel with
  | zero =>
    intro n hn a
    interval_cases n
    simp [natReprGo, digitChar_val 0 (by omega)]
  | succ fuel ih =>
    intro n hn a
    by_cases h : n < 10
    · rw [natReprGo, if_pos h]
      simp [digitChar_val n h]
    · have hdiv : n / 10 < n := Nat.div_lt_self (by omega) (by omega)
      rw [natReprGo, if_neg h, natReprGo_acc fuel (n / 10) [digitChar (n % 10)]]
      rw [List.foldl_append, ih (n / 10) (by omega) a]
      have hmod : (digitChar (n % 10)).toNat - 48 = n % 10 :=
        digitChar_val (n % 10) (Nat.mod_lt _ (by omega))
      simp only [List.foldl_cons, List.foldl_nil, hmod, List.length_append,
        List.length_singleton]
      rw [pow_succ]
      have := Nat.div_add_mod n 10
      ring_nf
      omega

/-- `parseInt` inverts the decimal rendering. -/
theorem parseDigits_natReprGo (n : Nat) : parseDigits (natReprGo n n []) = n := by
  have := parseDigits_go n n (Nat.le_refl n) 0
  simpa [parseDigits] using this

/-- A position whose case-insensitive text does not begin the
`Targeted Stores:` label yields no count match. -/
theorem countMatchAt_of_ciFalse (s : List Char)
    (h : ciPrefixOf "targeted stores:".data s = false) :
    countMatchAt s = none := by
  simp [countMatchAt, h]

/-- Scanning for the count label skips a block at whose positions the label
never matches. -/
theorem countScan_append_skip (ys : List Char) :
    ∀ xs : List Char,
      (∀ s, s <:+ xs → s ≠ [] → countMatchAt (s ++ ys) = none) →
      countScan (xs ++ ys) = countScan ys := by
  intro xs
  induction xs with
  | nil => simp
  | cons c cs ih =>
    intro h
    have hc : countMatchAt (c :: (cs ++ ys)) = none := by
      have := h (c :: cs) List.suffix_rfl (by simp)
      simpa using this
    simp only [List.cons_append, countScan, List.append_eq, hc]
    exact ih (fun s hs hne => h s (hs.trans (List.suffix_cons c cs)) hne)

end MessageBuilder

namespace MessageBuilder

/-- Character-level decomposition of the encoded teaser. -/
theorem encodeTeaser_data (D : String) (count : Nat) :
    (encodeTeaser D count).data
      = 'C' :: 'a' :: 't' :: 'e' :: 'g' :: 'o' :: 'r' :: 'y' :: ':' :: ' ' ::
        (D.data ++ ("; Targeted Stores: " ++ natRepr count).data) := by
  simp [encodeTeaser, String.data_append, List.append_assoc]

/-- Character-level decomposition of the teaser's count-label tail. -/
theorem countTail_data (count : Nat) :
    ("; Targeted Stores: " ++ natRepr count).data
      = ';' :: (' ' :: 'T' :: 'a' :: 'r' :: 'g' :: 'e' :: 't' :: 'e' :: 'd' :: ' ' :: 'S' :: 't'::
          'o' :: 'r' :: 'e' :: 's' :: ':' :: ' ' :: natReprGo count count []) := by
  simp [String.data_append, natRepr]

/-- The count regex recovers the encoded count from the teaser, provided the
department text itself never begins the `Targeted Stores:` label at any of
its positions. -/
theorem countScan_encodeTeaser (D : String) (count : Nat)
    (hno : ∀ s ∈ D.data.tails, s ≠ [] →
      ciPrefixOf "targeted stores:".data
        (s ++ ("; Targeted Stores: " ++ natRepr count).data) = false) :
    countScan (encodeTeaser D count).data = some count := by
  rw [encodeTeaser_data]
  have h1 : countScan
      ('C' :: 'a' :: 't' :: 'e' :: 'g' :: 'o' :: 'r' :: 'y' :: ':' :: ' ' ::
        (D.data ++ ("; Targeted Stores: " ++ natRepr count).data))
      = countScan (D.data ++ ("; Targeted Stores: " ++ natRepr count).data) := by
    simp [countScan, countMatchAt, ciPrefixOf, lcChar]
  rw [h1]
  rw [countScan_append_skip _ D.data (fun s hs hne =>
    countMatchAt_of_ciFalse _ (hno s ((List.mem_tails s D.data).mpr hs) hne))]
  have hdig := natReprGo_char_props count count (Nat.le_refl count)
  have hcap : countCapture (' ' :: natReprGo count count []) = some count := by
    cases hd : natReprGo count count [] with
    | nil => exact absurd hd (natReprGo_ne_nil count count)
    | cons d0 ds =>
      have hd0 := hdig d0 (by rw [hd]; simp)
      have hdw : List.dropWhile isJsWs (' ' :: d0 :: ds) = d0 :: ds := by
        rw [List.dropWhile_cons, if_pos (by decide : isJsWs ' ' = true),
          List.dropWhile_cons, if_neg (by simp [hd0.2.1])]
      have htw : List.takeWhile Char.isDigit (d0 :: ds) = d0 :: ds := by
        apply takeWhile_of_all
        intro x hx
        exact (hdig x (by rw [hd]; exact hx)).1
      simp only [countCapture, hdw, hd0.1, if_pos, htw]
      rw [← hd]
      rw [parseDigits_natReprGo]
  rw [countTail_data]
  simp [countScan, countMatchAt, ciPrefixOf, lcChar, hcap]

end MessageBuilder

namespace MessageBuilder

/-- A successful anchored match at the head position resolves the scan. -/
theorem deptScan_cons_of_match (c : Char) (cs : List Char) (cap : List Char)
    (h : deptMatchAt (c :: cs) = some cap) : deptScan (c :: cs) = some cap := by
  simp [deptScan, h]

/-- The department regex recovers the encoded department verbatim from the
teaser, for a non-empty department with no `;` and no leading whitespace
(the leftmost match sits at position 0 and its capture stops exactly at the
`;` separating the count label). -/
theorem deptScan_encodeTeaser (D : String) (count : Nat)
    (hne : D.data ≠ []) (htrim : trimChars D.data = D.data)
    (hsemi : ';' ∉ D.data) :
    deptScan (encodeTeaser D count).data = some D.data := by
  rw [encodeTeaser_data, countTail_data]
  cases hD : D.data with
  | nil => exact absurd hD hne
  | cons d0 ds =>
    have hd0ws : isJsWs d0 = false := head_not_ws_of_trim_self d0 ds (hD ▸ htrim)
    have hd0semi : ¬ d0 = ';' := by
      intro h
      apply hsemi
      rw [hD, h]
      simp
    have htws : List.takeWhile (fun c => !decide (c = ';'))
        (d0 :: (ds ++ ';' ::
          (' ' :: 'T' :: 'a' :: 'r' :: 'g' :: 'e' :: 't' :: 'e' :: 'd' :: ' ' :: 'S' :: 't' :: 'o' :: 'r'::
            'e' :: 's' :: ':' :: ' ' :: natReprGo count count []))) = d0 :: ds := by
      have h := takeWhile_append_stop (fun c => !decide (c = ';')) (d0 :: ds)
        ';' (' ' :: 'T' :: 'a' :: 'r' :: 'g' :: 'e' :: 't' :: 'e' :: 'd' :: ' ' :: 'S' :: 't' :: 'o'::
          'r' :: 'e' :: 's' :: ':' :: ' ' :: natReprGo count count [])
        (fun x hx => by
          simp only [Bool.not_eq_true', decide_eq_false_iff_not]
          intro he
          apply hsemi
          rw [hD, ← he]
          exact hx)
        (by simp)
      rwa [List.cons_append] at h
    have hcap : deptCapture (' ' :: d0 :: (ds ++ ';' ::
        (' ' :: 'T' :: 'a' :: 'r' :: 'g' :: 'e' :: 't' :: 'e' :: 'd' :: ' ' :: 'S' :: 't' :: 'o' :: 'r'::
          'e' :: 's' :: ':' :: ' ' :: natReprGo count count []))) = some (d0 :: ds) := by
      simp only [deptCapture, List.takeWhile_cons, List.dropWhile_cons,
        (by decide : isJsWs ' ' = true), hd0ws]
      simp [hd0semi, htws]
    rw [List.cons_append d0 ds _]
    apply deptScan_cons_of_match
    simp [deptMatchAt, ciPrefixOf, lcChar, hcap]

end MessageBuilder

namespace MessageBuilder

/-- The status step never touches the creation date. -/
theorem hydrateStatus_createdAt (it : Item) (p : PostData) :
    (hydrateStatus it p).createdAt = it.createdAt := by
  unfold hydrateStatus
  split
  · rfl
  · split <;> rfl

/-- The count step never touches the creation date. -/
theorem hydrateCount_createdAt (it : Item) (t b : String) :
    (hydrateCount it t b).createdAt = it.createdAt := by
  unfold hydrateCount
  split
  · rfl
  · split <;> rfl

/-- The department step never touches the creation date. -/
theorem hydrateDept_createdAt (it : Item) (t k b : String) :
    (hydrateDept it t k b).createdAt = it.createdAt := by
  unfold hydrateDept
  split
  · rfl
  · split
    · rfl
    · split
      · split <;> rfl
      · rfl

/-- The encoded teaser is never the empty string. -/
theorem encodeTeaser_ne_empty (D : String) (count : Nat) :
    encodeTeaser D count ≠ "" := by
  intro h
  have := congrArg String.data h
  rw [encodeTeaser_data] at this
  simp at this

/-- The encoded identifier token is never the empty string and starts with
`adhoc`. -/
theorem encodeExternalID_starts (now : Nat) :
    encodeExternalID now ≠ "" ∧
    jsStartsWith (encodeExternalID now) "adhoc" = true := by
  have hdata : (encodeExternalID now).data
      = 'a' :: 'd' :: 'h' :: 'o' :: 'c' :: ('-' :: natReprGo now now []) := by
    simp [encodeExternalID, natRepr, String.data_append]
  constructor
  · intro h
    have := congrArg String.data h
    rw [hdata] at this
    simp at this
  · exact jsStartsWith_adhoc_of_data _ _ hdata

/-- C3 counterexample: the current-generation round trip fails as soon as the
department contains a `;` — the teaser capture `[^;]+` truncates at the first
`;`, so `(createdAt, "a;b", 2)` decodes with department `"a"`. -/
theorem metadata_roundtrip_cex :
    (decodeInst
        ⟨"c1", "news", some (encodeExternalID 1700000000000), some "T",
          some ["u1", "u2"], some "2024-01-01", none⟩
        (some [⟨some (encodeTeaser "a;b" 2), some "a;b", some "body",
          false, false⟩]) "now").map Item.department = some "a" ∧
    ("a" : String) ≠ "a;b" := by
  exact ⟨by decide, by decide⟩

/-- C3 (amended): the current-generation round trip
`decode (encode createdAtMs department targetCount)` recovers the department
and the target count exactly, provided the department is non-empty,
trim-stable, contains no `;` and never begins the `Targeted Stores:` label;
the creation time is NOT parsed back out of the `adhoc-<ms>` identifier —
the decoded `createdAt` is the object's own stored creation date (which the
platform sets to the creation time, here an arbitrary `caStr`). -/
theorem metadata_roundtrip_amended (now count : Nat)
    (D chId tt caStr nowIso : String) (acc : List String)
    (c : Option String) (pub pl : Bool)
    (hne : D.data ≠ []) (htrim : trimChars D.data = D.data)
    (hsemi : ';' ∉ D.data)
    (hno : ∀ s ∈ D.data.tails, s ≠ [] →
      ciPrefixOf "targeted stores:".data
        (s ++ ("; Targeted Stores: " ++ natRepr count).data) = false)
    (_htt : tt ≠ "") (hca : caStr ≠ "") :
    (decodeInst
        ⟨chId, "news", some (encodeExternalID now), some tt, some acc,
          some caStr, none⟩
        (some [⟨some (encodeTeaser D count), some D, c, pub, pl⟩])
        nowIso).map Item.department = some D ∧
    (decodeInst
        ⟨chId, "news", some (encodeExternalID now), some tt, some acc,
          some caStr, none⟩
        (some [⟨some (encodeTeaser D count), some D, c, pub, pl⟩])
        nowIso).map Item.userCount = some count ∧
    (decodeInst
        ⟨chId, "news", some (encodeExternalID now), some tt, some acc,
          some caStr, none⟩
        (some [⟨some (encodeTeaser D count), some D, c, pub, pl⟩])
        nowIso).map Item.createdAt = some caStr := by
  have hadhoc : jsStartsWith
      (jsOr (Installation.externalID ⟨chId, "news", some (encodeExternalID now),
        some tt, some acc, some caStr, none⟩) "") "adhoc" = true := by
    simp only [jsOr_some_of_ne _ _ (encodeExternalID_starts now).1]
    exact (encodeExternalID_starts now).2
  have hD := decodeInst_adhoc
    ⟨chId, "news", some (encodeExternalID now), some tt, some acc,
      some caStr, none⟩
    ⟨some (encodeTeaser D count), some D, c, pub, pl⟩ nowIso rfl hadhoc
  simp only [hD, Option.map_some']
  simp only [hydrateItem, jsOr_some_of_ne _ _ (encodeTeaser_ne_empty D count)]
  constructor
  · rw [hydrateStatus_department, hydrateCount_department]
    simp only [hydrateDept, deptScan_encodeTeaser D count hne htrim hsemi]
    rw [htrim, stringMk_data]
  constructor
  · rw [hydrateStatus_userCount]
    simp only [hydrateCount, countScan_encodeTeaser D count hno]
  · rw [hydrateStatus_createdAt, hydrateCount_createdAt, hydrateDept_createdAt]
    simp [jsOr_some_of_ne _ _ hca]

/-- Witness for C3's amended round trip at
`(1700000000000, "Marketing", 42)`. -/
theorem metadata_roundtrip_amended_witness :
    (decodeInst
        ⟨"cW", "news", some (encodeExternalID 1700000000000), some "T",
          some ["u1"], some "2024-02-02", none⟩
        (some [⟨some (encodeTeaser "Marketing" 42), some "Marketing", none,
          false, false⟩]) "now").map Item.department = some "Marketing" ∧
    (decodeInst
        ⟨"cW", "news", some (encodeExternalID 1700000000000), some "T",
          some ["u1"], some "2024-02-02", none⟩
        (some [⟨some (encodeTeaser "Marketing" 42), some "Marketing", none,
          false, false⟩]) "now").map Item.userCount = some 42 ∧
    (decodeInst
        ⟨"cW", "news", some (encodeExternalID 1700000000000), some "T",
          some ["u1"], some "2024-02-02", none⟩
        (some [⟨some (encodeTeaser "Marketing" 42), some "Marketing", none,
          false, false⟩]) "now").map Item.createdAt = some "2024-02-02" :=
  metadata_roundtrip_amended 1700000000000 42 "Marketing" "cW" "T"
    "2024-02-02" "now" ["u1"] none false false (by decide) (by decide)
    (by decide) (by decide) (by decide) (by decide)

end MessageBuilder

namespace MessageBuilder

/-- C8: invoked with zero resolved accounts (absent or empty
`verifiedUsers`), the create handler rejects synchronously with the 4xx
validation error and performs no external call at all — in particular no
channel and no post is created, so external state is untouched. -/
theorem create_validation_short_circuit (req : CreateReq) (env : CreateEnv)
    (dateParse fmtDate : String → String)
    (h : req.verifiedUsers = none ∨ req.verifiedUsers = some []) :
    createHandler req env dateParse fmtDate
      = (Except.error (400, "No verified users provided."), []) := by
  rcases h with h | h <;> simp [createHandler, h]

/-- Witness for C8 with an explicitly empty verified-users array. -/
theorem create_validation_short_circuit_witness :
    createHandler ⟨some [], "Title", some "Ops", none, none⟩
        ⟨0, "CH", none, "PO", none, [], (fun _ => ""), (fun _ => false),
          (fun _ _ => false), true⟩ id id
      = (Except.error (400, "No verified users provided."), []) :=
  create_validation_short_circuit
    ⟨some [], "Title", some "Ops", none, none⟩
    ⟨0, "CH", none, "PO", none, [], (fun _ => ""), (fun _ => false),
      (fun _ _ => false), true⟩ id id (Or.inr rfl)

/-- C5: if exactly one discovered project's task-list creation throws (all
other per-project work succeeding, channel and post creation succeeding, no
profile file), the error is caught per project and the create call still
completes successfully; the returned `taskCount` is `rows.length *
matchedProjects.length` — intended work, unaffected by the failure, and the
failure is not reported in the result. -/
theorem partial_fanout_tolerance (req : CreateReq) (env : CreateEnv)
    (dateParse fmtDate : String → String) (vus : List DirUser) (text : String)
    (hvu : req.verifiedUsers = some vus) (hne : vus ≠ [])
    (hcsv : req.taskCsv = some text) (hprof : req.profileCsv = none)
    (hchan : env.channelFail = none) (hpost : env.postFail = none)
    (_hfail : ∃ f ∈ jsObjectValues
        (discoverProjects (vus.map (·.csvId)) env.installations),
      env.listFail f = true ∧
        ∀ i ∈ jsObjectValues
            (discoverProjects (vus.map (·.csvId)) env.installations),
          i ≠ f → env.listFail i = false) :
    (createHandler req env dateParse fmtDate).1
      = Except.ok ⟨env.channelResId, env.postResId,
          (parseTaskCSV dateParse text).length *
            (jsObjectValues
              (discoverProjects (vus.map (·.csvId)) env.installations)).length,
          0⟩ := by
  have hlen : ¬ vus.length = 0 := by
    intro h
    exact hne (List.length_eq_zero.mp h)
  simp [createHandler, hvu, hcsv, hprof, hchan, hpost, hlen]

/-- Witness for C5: two matched store projects, the first one's task-list
creation throwing; `taskCount` is still `1 * 2 = 2` and the call succeeds. -/
theorem partial_fanout_tolerance_witness :
    (createHandler
        ⟨some [⟨"u1", "100", "A"⟩, ⟨"u2", "200", "B"⟩], "Title", some "Ops",
          some "T1;d1;", none⟩
        ⟨1700000000000, "CH", none, "PO", none,
          [⟨"I1", "tasks", none, some "Store 100", none, none, none⟩,
           ⟨"I2", "tasks", none, some "Store 200", none, none, none⟩],
          (fun i => "L-" ++ i), (fun i => i = "I1"), (fun _ _ => false),
          true⟩ id id).1
      = Except.ok ⟨"CH", "PO", 2, 0⟩ := by
  have h := partial_fanout_tolerance
    ⟨some [⟨"u1", "100", "A"⟩, ⟨"u2", "200", "B"⟩], "Title", some "Ops",
      some "T1;d1;", none⟩
    ⟨1700000000000, "CH", none, "PO", none,
      [⟨"I1", "tasks", none, some "Store 100", none, none, none⟩,
       ⟨"I2", "tasks", none, some "Store 200", none, none, none⟩],
      (fun i => "L-" ++ i), (fun i => i = "I1"), (fun _ _ => false), true⟩
    id id [⟨"u1", "100", "A"⟩, ⟨"u2", "200", "B"⟩] "T1;d1;"
    rfl (by decide) rfl rfl rfl rfl
    ⟨"I1", by decide, by decide, by decide⟩
  simpa using h

/-- The slice-by-five chunking covers the whole list in order. -/
theorem chunk5_flatten {α : Type} :
    ∀ (n : Nat) (l : List α), l.length ≤ n → (chunk5 l).flatten = l := by
  intro n
  induction n with
  | zero =>
    intro l h
    rw [List.eq_nil_of_length_eq_zero (Nat.le_zero.mp h)]
    rfl
  | succ n ih =>
    intro l h
    rcases l with _ | ⟨x1, _ | ⟨x2, _ | ⟨x3, _ | ⟨x4, _ | ⟨x5, _ | ⟨x6, rest⟩⟩⟩⟩⟩⟩
    · rfl
    · simp [chunk5]
    · simp [chunk5]
    · simp [chunk5]
    · simp [chunk5]
    · simp [chunk5]
    · simp only [chunk5, List.flatten_cons]
      rw [ih (x6 :: rest) (by simp only [List.length_cons] at h ⊢; omega)]
      simp

/-- Every slice-by-five chunk has at most five elements. -/
theorem chunk5_mem_length {α : Type} :
    ∀ (n : Nat) (l : List α), l.length ≤ n → ∀ b ∈ chunk5 l, b.length ≤ 5 := by
  intro n
  induction n with
  | zero =>
    intro l h b hb
    rw [List.eq_nil_of_length_eq_zero (Nat.le_zero.mp h)] at hb
    simp [chunk5] at hb
  | succ n ih =>
    intro l h b hb
    rcases l with _ | ⟨x1, _ | ⟨x2, _ | ⟨x3, _ | ⟨x4, _ | ⟨x5, _ | ⟨x6, rest⟩⟩⟩⟩⟩⟩
    · simp [chunk5] at hb
    · simp [chunk5] at hb; rw [hb]; simp
    · simp [chunk5] at hb; rw [hb]; simp
    · simp [chunk5] at hb; rw [hb]; simp
    · simp [chunk5] at hb; rw [hb]; simp
    · simp [chunk5] at hb; rw [hb]; simp
    · simp only [chunk5, List.mem_cons] at hb
      rcases hb with hb | hb
      · rw [hb]; simp
      · exact ih (x6 :: rest)
          (by simp only [List.length_cons] at h ⊢; omega) b hb

/-- C2 counterexample: with six matched projects the reachable fan-out loop
issues six strictly sequential single-project groups, not the claimed
fixed-size batches of five with intra-batch concurrency (that chunked
schedule exists only in the unreachable duplicate block). -/
theorem fanout_batching_cex :
    fanOutConcurrencyGroups ["p1", "p2", "p3", "p4", "p5", "p6"]
      ≠ chunk5 ["p1", "p2", "p3", "p4", "p5", "p6"] := by
  decide

/-- C2 (amended): the reachable fan-out processes the matched project ids
strictly sequentially — its concurrency groups are singletons, one per
project in order, each settling before the next starts (which trivially
respects the at-most-5 concurrency cap); the partition into fixed-size
batches of at most five with intra-batch concurrency is implemented only by
the unreachable duplicate block, whose chunking does cover all ids in order
in batches of at most five. -/
theorem fanout_schedule_amended (ids : List String) :
    (fanOutConcurrencyGroups ids).flatten = ids ∧
    (∀ b ∈ fanOutConcurrencyGroups ids, b.length = 1) ∧
    (chunk5 ids).flatten = ids ∧
    (∀ b ∈ chunk5 ids, b.length ≤ 5) := by
  refine ⟨?_, ?_, ?_, ?_⟩
  · induction ids with
    | nil => rfl
    | cons x xs ih => simp [fanOutConcurrencyGroups] at ih ⊢; exact ih
  · intro b hb
    simp only [fanOutConcurrencyGroups, List.mem_map] at hb
    obtain ⟨i, _, hi⟩ := hb
    rw [← hi]
    rfl
  · exact chunk5_flatten ids.length ids (Nat.le_refl _)
  · exact chunk5_mem_length ids.length ids (Nat.le_refl _)

end MessageBuilder

namespace MessageBuilder

/-- C9: the directory index builder never throws and is best-effort: it
pages with page size 100 from offset 0; if the first page-fetch error hits
page `k` (and the directory extends at least that far, i.e. no earlier page
was short), it stops and returns the index of exactly the first `100*k`
directory entries; with no errors it indexes the whole directory, stopping
at the first empty or short page.  (Totality — "never throws" — is inherent:
the model is a total function whose error branch returns the accumulated
map.) -/
theorem directory_index_best_effort (hak : String) (dir : List RawUser)
    (pageErr : Nat → Bool) :
    (∀ k, (∀ j, j < k → pageErr (100 * j) = false) →
      pageErr (100 * k) = true → 100 * k ≤ dir.length →
      getAllUsersMap hak dir pageErr
        = (dir.take (100 * k)).foldl (processUser hak) []) ∧
    ((∀ j, pageErr (100 * j) = false) →
      getAllUsersMap hak dir pageErr = dir.foldl (processUser hak) []) := by
  constructor
  · intro k hok herr hle
    have := getAllUsersMapGo_err hak dir pageErr k 0 []
      (fun j hj => by simpa using hok j hj) (by simpa using herr)
      (by simpa using hle)
    simpa [getAllUsersMap] using this
  · intro hno
    have := getAllUsersMapGo_ok hak dir pageErr dir.length 0 []
      (by omega) (fun j => by simpa using hno j)
    simpa [getAllUsersMap] using this

/-- Witness for C9: a one-entry directory whose very first page fetch throws
yields the empty index (the fold over zero pages). -/
theorem directory_index_best_effort_witness :
    getAllUsersMap "sid"
        [⟨"u1", some "Al", none, some [("sid", "100")]⟩] (fun _ => true)
      = (([⟨"u1", some "Al", none, some [("sid", "100")]⟩] :
          List RawUser).take (100 * 0)).foldl (processUser "sid") [] :=
  (directory_index_best_effort "sid"
      [⟨"u1", some "Al", none, some [("sid", "100")]⟩] (fun _ => true)).1 0
    (fun j hj => absurd hj (Nat.not_lt_zero j)) rfl (by simp)

end MessageBuilder
